import Mathlib

set_option maxRecDepth 10000

/-!
Shallow embedding of `src/main.py` (FastAPI points dashboard, networked
PostgreSQL variant): the credential store and authenticator, the `persons`
table, and the four HTTP handlers (`dashboard`, `get_persons`, `add_person`,
`update_points`).  Handlers are modelled as pure state-passing functions on
the table; an HTTP error response is an explicit value.
-/

namespace Dashboard

/-- Value of one entry of the credential store: the stored password and role
for a username. -/
structure UserRec where
  password : String
  role : String
deriving DecidableEq

/-- The fixed in-process credential store `USERS` of `main.py`. -/
def USERS : String → Option UserRec := fun u =>
  if u = "admin" then some ⟨"supersecret", "admin"⟩
  else if u = "john" then some ⟨"readonly123", "viewer"⟩
  else if u = "sarah" then some ⟨"readpass", "viewer"⟩
  else none

/-- Value returned by `get_current_user`: the authenticated identity. -/
structure Identity where
  username : String
  role : String
deriving DecidableEq

/-- Model of an `HTTPException` response: status code, detail message, and
extra response headers. -/
structure HTTPError where
  status : Nat
  detail : String
  headers : List (String × String)
deriving DecidableEq

/-- Model of `get_current_user`: look the username up in `USERS` and compare
the stored password with the presented one (`secrets.compare_digest` on
strings is equality; its timing resistance is not modelled).  Failure raises
401 "Invalid credentials" with a `WWW-Authenticate: Basic` header. -/
def get_current_user (username password : String) : Except HTTPError Identity :=
  match USERS username with
  | none => .error ⟨401, "Invalid credentials", [("WWW-Authenticate", "Basic")]⟩
  | some u =>
    if u.password = password then .ok ⟨username, u.role⟩
    else .error ⟨401, "Invalid credentials", [("WWW-Authenticate", "Basic")]⟩

/-- Row of the `persons` table.  The surrogate `id` column is only used for
storage indexing and is never read by any handler, so it is omitted.  `name`
is a nullable string column with a UNIQUE constraint (`data.get("name")` may
be `None`); `points` is a nullable integer column. -/
structure Person where
  name : Option String
  points : Option Int
deriving DecidableEq

/-- State of the `persons` table: its list of rows. -/
abbrev DB := List Person

/-- Non-null names stored in the table. -/
def namesOf (db : DB) : List String := db.filterMap Person.name

/-- Database invariant enforced by the UNIQUE constraint on `name`: non-null
names are pairwise distinct (SQL UNIQUE does not constrain NULLs). -/
def WF (db : DB) : Prop := (namesOf db).Nodup

/-- JSON object `\x7b"name": ..., "points": ...\x7d` returned by the JSON
handlers for one person. -/
structure PersonOut where
  name : Option String
  points : Option Int
deriving DecidableEq

/-- Rendering of a stored row as its response object. -/
def toPair (p : Person) : PersonOut := ⟨p.name, p.points⟩

/-- PostgreSQL ascending comparison on the nullable `points` column: under
`ASC`, NULLs sort last. -/
def ptsLe (a b : Option Int) : Bool :=
  match a, b with
  | none, none => true
  | none, some _ => false
  | some _, none => true
  | some x, some y => decide (x ≤ y)

/-- Row ordering produced by `ORDER BY points ASC` in `get_persons`. -/
def rowLe (p q : Person) : Prop := ptsLe p.points q.points = true

instance : DecidableRel rowLe := fun _ _ => inferInstanceAs (Decidable (_ = true))

/-- Ordering of response objects by their `points`, mirroring `rowLe`. -/
def outLe (p q : PersonOut) : Prop := ptsLe p.points q.points = true

instance : IsTotal Person rowLe where
  total p q := by
    unfold rowLe ptsLe
    rcases p.points with _ | x <;> rcases q.points with _ | y <;> simp <;> omega

instance : IsTrans Person rowLe where
  trans p q s := by
    unfold rowLe ptsLe
    rcases p.points with _ | x <;> rcases q.points with _ | y <;>
      rcases s.points with _ | z <;> simp <;> omega

/-- Handler of `GET /persons`: runs
`select(Person).order_by(Person.points.asc())` and renders each row as its
response object.  The handler never mutates the table; the state component is
returned to make that explicit. -/
def get_persons (db : DB) : DB × Except HTTPError (List PersonOut) :=
  (db, .ok ((db.insertionSort rowLe).map toPair))

/-- An unexpected storage failure during commit: anything the bare `except:`
of `add_person` could catch besides a uniqueness violation (connection loss,
serialization failure, ...).  The message is abstract. -/
structure StorageErr where
  msg : String
deriving DecidableEq

/-- Whether inserting a row named `n` violates the UNIQUE constraint on
`name`: only a duplicated non-null name does. -/
def violatesUnique (db : DB) (n : Option String) : Bool :=
  match n with
  | none => false
  | some s => db.any (fun r => r.name == some s)

/-- Handler of `POST /add_person`: 403 for non-admins; otherwise add
`Person(name=data.get("name"), points=0)` to the session and commit.  The
commit raises on a uniqueness violation, or on an injected unrelated storage
failure (`interference`); the bare `except:` then rolls back — leaving the
table unchanged — and raises the 400 duplicate error.  On success the handler
returns the created object. -/
def add_person (db : DB) (role : String) (name : Option String)
    (interference : Option StorageErr) : DB × Except HTTPError PersonOut :=
  if role ≠ "admin" then (db, .error ⟨403, "Admins only", []⟩)
  else if violatesUnique db name then
    (db, .error ⟨400, "Person already exists", []⟩)
  else
    match interference with
    | some _ => (db, .error ⟨400, "Person already exists", []⟩)
    | none => (db ++ [⟨name, some 0⟩], .ok ⟨name, some 0⟩)

/-- Overwrite the points of the first row whose name equals `n` (SQLAlchemy
renders `Person.name == None` as `name IS NULL`, so `n = none` matches
NULL-named rows). -/
def setPoints : DB → Option String → Option Int → DB
  | [], _, _ => []
  | r :: rs, n, p =>
    if r.name = n then { r with points := p } :: rs else r :: setPoints rs n p

/-- Handler of `POST /update_points`: 403 for non-admins; look the person up
by exact name match and take `scalar_one_or_none`: 404 when no row matches;
when several rows match (possible only for NULL names, which UNIQUE does not
constrain) `scalar_one_or_none` raises `MultipleResultsFound`, surfacing as an
uncaught 500 with no commit; otherwise overwrite the row's `points` wholesale
with the supplied value, commit, and return the updated object. -/
def update_points (db : DB) (role : String) (name : Option String)
    (points : Option Int) : DB × Except HTTPError PersonOut :=
  if role ≠ "admin" then (db, .error ⟨403, "Admins only", []⟩)
  else
    match db.filter (fun r => r.name == name) with
    | [] => (db, .error ⟨404, "Person not found", []⟩)
    | [_] => (setPoints db name points, .ok ⟨name, points⟩)
    | _ => (db, .error ⟨500, "Internal Server Error", []⟩)

/-- Markup fragment of the add-person form header, emitted only for admins. -/
def fragAddH : String := "<h3>Add Person:</h3>"

/-- Markup fragment of the add-person name input, emitted only for admins. -/
def fragAddName : String :=
  "<input type=\x27text\x27 id=\x27newName\x27 placeholder=\x27Name\x27>"

/-- Markup fragment of the add-person submit button, emitted only for
admins. -/
def fragAddBtn : String := "<button onclick=\x27addPerson()\x27>Add</button>"

/-- Markup fragment of the update-points form header, emitted only for
admins. -/
def fragUpdH : String := "<h3>Update Points:</h3>"

/-- Markup fragment of the update-points name input, emitted only for
admins. -/
def fragUpdName : String :=
  "<input type=\x27text\x27 id=\x27updateName\x27 placeholder=\x27Name\x27>"

/-- Markup fragment of the update-points integer input, emitted only for
admins. -/
def fragUpdPts : String :=
  "<input type=\x27number\x27 id=\x27newPoints\x27 placeholder=\x27Points\x27>"

/-- Markup fragment of the update-points submit button, emitted only for
admins. -/
def fragUpdBtn : String :=
  "<button onclick=\x27updatePoints()\x27>Update</button>"

/-- Script lines of the `addPerson` wiring, each emitted only for admins. -/
def fragJsAdd : List String :=
  [ "async function addPerson() \x7b",
    "  const name = document.getElementById(\x27newName\x27).value;",
    "  await fetch(\x27/add_person\x27, \x7b",
    "    method: \x27POST\x27,",
    "    headers: \x7b \x27Content-Type\x27: \x27application/json\x27, Authorization: authHeader \x7d,",
    "    body: JSON.stringify(\x7b name \x7d)",
    "  \x7d);",
    "  loadPeople();",
    "\x7d" ]

/-- Script lines of the `updatePoints` wiring, each emitted only for
admins. -/
def fragJsUpd : List String :=
  [ "async function updatePoints() \x7b",
    "  const name = document.getElementById(\x27updateName\x27).value;",
    "  const points = parseInt(document.getElementById(\x27newPoints\x27).value);",
    "  await fetch(\x27/update_points\x27, \x7b",
    "    method: \x27POST\x27,",
    "    headers: \x7b \x27Content-Type\x27: \x27application/json\x27, Authorization: authHeader \x7d,",
    "    body: JSON.stringify(\x7b name, points \x7d)",
    "  \x7d);",
    "  loadPeople();",
    "\x7d" ]

/-- All conditional admin-only fragments of the dashboard template: the two
forms and the `addPerson` / `updatePoints` wiring script lines. -/
def adminFragments : List String :=
  [fragAddH, fragAddName, fragAddBtn, fragUpdH, fragUpdName, fragUpdPts,
   fragUpdBtn] ++ fragJsAdd ++ fragJsUpd

/-- Static part of the dashboard template up to and including the indentation
of the first conditional fragment. -/
def htmlHead : String := "
    <!DOCTYPE html>
    <html>
    <head>
        <title>Points Dashboard</title>
        <style>
            body \x7b
                font-family: \x27Segoe UI\x27, Tahoma, Geneva, Verdana, sans-serif;
                margin: 40px;
                background-color: #f7f9fc;
                color: #333;
            \x7d
            h2 \x7b
                margin-bottom: 10px;
            \x7d
            h3 \x7b
                margin-top: 30px;
            \x7d
            input, button \x7b
                margin: 5px;
                padding: 10px;
                font-size: 16px;
                border: 1px solid #ccc;
                border-radius: 4px;
            \x7d
            button \x7b
                background-color: #007bff;
                color: white;
                border: none;
                cursor: pointer;
            \x7d
            button:hover \x7b
                background-color: #0056b3;
            \x7d
            table \x7b
                width: 100%;
                border-collapse: collapse;
                margin-top: 20px;
                background-color: white;
                box-shadow: 0 0 10px rgba(0,0,0,0.05);
            \x7d
            th, td \x7b
                padding: 12px 16px;
                border-bottom: 1px solid #e2e2e2;
                text-align: left;
            \x7d
            thead \x7b
                background-color: #f0f2f5;
                font-weight: bold;
            \x7d
            tr:hover \x7b
                background-color: #f5faff;
            \x7d
        </style>
    </head>
    <body>
        <table id=\"personTable\">
            <thead>
                <tr>
                    <th>Name</th>
                    <th>Points</th>
                </tr>
            </thead>
            <tbody></tbody>
        </table>

        "

/-- Static part of the template between the form area and the interpolated
`username:password` of the Basic header. -/
def scriptOpen : String :=
  "\n\n        <script>\n            const authHeader = \"Basic \" + btoa(\""

/-- Static part of the template from the end of the interpolation through the
`loadPeople` definition, up to and including the indentation of the first
conditional script line. -/
def scriptLoad : String := "\");

            async function loadPeople() \x7b
                const res = await fetch(\"/persons\", \x7b
                    headers: \x7b Authorization: authHeader \x7d
                \x7d);
                const data = await res.json();
                const tbody = document.querySelector(\"#personTable tbody\");
                tbody.innerHTML = \"\";
                data.forEach(p => \x7b
                    const row = document.createElement(\"tr\");
                    row.innerHTML = `<td>$\x7bp.name\x7d</td><td>$\x7bp.points\x7d</td>`;
                    tbody.appendChild(row);
                \x7d);
            \x7d

            "

/-- Static tail of the template after the last conditional script line. -/
def htmlTail : String := "

            loadPeople();
        </script>
    </body>
    </html>
    "

/-- Line separator with the 12-space indentation of the script block. -/
def sep12 : String := "\n            "

/-- Line separator with the 8-space indentation of the form block. -/
def sep8 : String := "\n        "

/-- Rendering of the dashboard f-string of `main.py` for the given identity
values: each `\x7b"..." if is_admin else ""\x7d` interpolation becomes `adm`
applied to the fragment. -/
def dashboard_html (username password : String) (is_admin : Bool) : String :=
  let adm : String → String := fun s => if is_admin then s else ""
  htmlHead
    ++ adm fragAddH ++ sep8 ++ adm fragAddName ++ sep8 ++ adm fragAddBtn
    ++ "\n" ++ sep8 ++ adm fragUpdH ++ sep8 ++ adm fragUpdName ++ sep8
    ++ adm fragUpdPts ++ sep8 ++ adm fragUpdBtn
    ++ scriptOpen ++ username ++ ":" ++ password ++ scriptLoad
    ++ String.intercalate sep12 (fragJsAdd.map adm)
    ++ "\n" ++ sep12
    ++ String.intercalate sep12 (fragJsUpd.map adm)
    ++ htmlTail

/-- Handler of `GET /`: renders the dashboard for an authenticated identity.
The caller's plaintext password is looked up in `USERS` to embed the Basic
header into the page script; a missing username would be a Python `KeyError`,
modelled as `none`. -/
def dashboard (user : Identity) : Option String :=
  match USERS user.username with
  | none => none
  | some u => some (dashboard_html user.username u.password (user.role == "admin"))

/-- Decision procedure for list-of-characters prefix. -/
def isPrefixOfCL : List Char → List Char → Bool
  | [], _ => true
  | _ :: _, [] => false
  | a :: as, b :: bs => a == b && isPrefixOfCL as bs

/-- Decision procedure for substring containment on characters: `pat` occurs
contiguously in the second argument. -/
def containsCL (pat : List Char) : List Char → Bool
  | [] => isPrefixOfCL pat []
  | c :: t => isPrefixOfCL pat (c :: t) || containsCL pat t

/-- Substring containment on strings. -/
def strContains (hay pat : String) : Bool := containsCL pat.data hay.data

/-- Admin script fragments whose text already occurs verbatim inside the
unconditional `loadPeople` script of the template (up to indentation), so a
substring check finds them even in a viewer's document. -/
def sharedScriptLines : List String := ["  \x7d);", "  loadPeople();", "\x7d"]

/-- Interleaving of a separator between consecutive list elements, so that
concatenating the result equals `String.intercalate`. -/
def interleave (sep : String) : List String → List String
  | [] => []
  | [x] => [x]
  | x :: y :: xs => x :: sep :: interleave sep (y :: xs)

/-- Concatenation of a list of string pieces. -/
def concatAll (l : List String) : String := l.foldr (fun a b => a ++ b) ""

/-- Separator-prefixed tail elements, the shape `interleave` takes after its
first element. -/
def sepPref (sep : String) : List String → List String
  | [] => []
  | y :: ys => sep :: y :: sepPref sep ys

/-- The admin dashboard document, decomposed into its template pieces in
order: every conditional fragment is emitted, separated by the template's
literal indentation. -/
def adminDocPieces (u p : String) : List String :=
  [htmlHead, fragAddH, sep8, fragAddName, sep8, fragAddBtn, "\n", sep8,
   fragUpdH, sep8, fragUpdName, sep8, fragUpdPts, sep8, fragUpdBtn,
   scriptOpen, u, ":", p, scriptLoad]
  ++ interleave sep12 fragJsAdd ++ ["\n", sep12]
  ++ interleave sep12 fragJsUpd ++ [htmlTail]

/-- Short distinguishing substrings of the admin-only fragments: every
distinctive admin fragment contains one of these, and none of them occurs
anywhere in a document rendered for a non-admin. -/
def viewerMarkers : List String :=
  ["<h3>", "<input", "addPerson", "updatePoints", "getElementById",
   "fetch(\x27", "POST", "Content-Type", "JSON.stringify"]

/-- One request to any of the four endpoints, with the data the handler
reads: the authenticated identity's role, the body fields, and (for create)
a possible injected storage failure. -/
inductive Op where
  | dash : Identity → Op
  | listP : Op
  | add : String → Option String → Option StorageErr → Op
  | upd : String → Option String → Option Int → Op

/-- State of the persons table after one request, whether it succeeded or
failed. -/
def applyOp (db : DB) : Op → DB
  | .dash _ => db
  | .listP => (get_persons db).1
  | .add role n intf => (add_person db role n intf).1
  | .upd role n p => (update_points db role n p).1

/-! Helper lemmas. -/

/-- Membership in the stored non-null names is witnessed by a row. -/
theorem mem_namesOf {db : DB} {n : String} :
    n ∈ namesOf db ↔ ∃ r ∈ db, r.name = some n := by
  simp [namesOf, List.mem_filterMap]

/-- A name absent from the table filters to the empty row list. -/
theorem filter_name_nil {db : DB} {n : String}
    (h : ∀ r ∈ db, r.name ≠ some n) :
    db.filter (fun r => r.name == some n) = [] := by
  rw [List.filter_eq_nil_iff]
  intro r hr
  simp only [beq_iff_eq]
  exact h r hr

/-- Under the uniqueness invariant, a present name filters to exactly its
one row. -/
theorem filter_name_single {db : DB} {n : String} (hwf : WF db)
    (h : ∃ r ∈ db, r.name = some n) :
    ∃ x, db.filter (fun r => r.name == some n) = [x] ∧ x.name = some n := by
  induction db with
  | nil => simp at h
  | cons r rs ih =>
    by_cases hr : r.name = some n
    · have hnmem : n ∉ namesOf rs := by
        unfold WF namesOf at hwf
        rw [List.filterMap_cons, hr] at hwf
        exact (List.nodup_cons.mp hwf).1
      have htail : rs.filter (fun x => x.name == some n) = [] := by
        refine filter_name_nil fun x hx hxn => hnmem (mem_namesOf.mpr ⟨x, hx, hxn⟩)
      refine ⟨r, ?_, hr⟩
      rw [List.filter_cons, if_pos (by simp [hr]), htail]
    · have hwf' : WF rs := by
        unfold WF namesOf at hwf ⊢
        rw [List.filterMap_cons] at hwf
        rcases hname : r.name with _ | s <;> rw [hname] at hwf
        · exact hwf
        · exact (List.nodup_cons.mp hwf).2
      obtain ⟨x, hx, hxn⟩ := h
      rcases List.mem_cons.mp hx with rfl | hx'
      · exact absurd hxn hr
      · obtain ⟨y, hfil, hyn⟩ := ih hwf' ⟨x, hx', hxn⟩
        refine ⟨y, ?_, hyn⟩
        rw [List.filter_cons, if_neg (by simp [hr]), hfil]

/-- `setPoints` leaves some row carrying the target name with the new
points value, provided a matching row exists. -/
theorem setPoints_mem_updated (db : DB) (n : Option String) (p : Option Int)
    (h : ∃ r ∈ db, r.name = n) :
    ∃ r ∈ setPoints db n p, r.name = n ∧ r.points = p := by
  induction db with
  | nil => simp at h
  | cons x xs ih =>
    by_cases hx : x.name = n
    · exact ⟨{ x with points := p }, by simp [setPoints, hx], hx, rfl⟩
    · obtain ⟨r, hr, hrn⟩ := h
      rcases List.mem_cons.mp hr with rfl | hr'
      · exact absurd hrn hx
      · obtain ⟨y, hy, hyn, hyp⟩ := ih ⟨r, hr', hrn⟩
        refine ⟨y, ?_, hyn, hyp⟩
        simp only [setPoints, if_neg hx]
        exact List.mem_cons_of_mem x hy

/-- Rows whose name differs from the target survive `setPoints`
unchanged. -/
theorem setPoints_mem_other (db : DB) (n : Option String) (p : Option Int) :
    ∀ r ∈ db, r.name ≠ n → r ∈ setPoints db n p := by
  induction db with
  | nil => simp
  | cons x xs ih =>
    intro r hr hrn
    rcases List.mem_cons.mp hr with rfl | hr'
    · have hx : r.name ≠ n := hrn
      simp only [setPoints, if_neg hx]
      exact List.mem_cons_self r (setPoints xs n p)
    · by_cases hx : x.name = n
      · simp only [setPoints, if_pos hx]
        exact List.mem_cons_of_mem _ hr'
      · simp only [setPoints, if_neg hx]
        exact List.mem_cons_of_mem x (ih r hr' hrn)

/-- `setPoints` does not change the stored names. -/
theorem setPoints_names (db : DB) (n : Option String) (p : Option Int) :
    namesOf (setPoints db n p) = namesOf db := by
  induction db with
  | nil => rfl
  | cons x xs ih =>
    by_cases hx : x.name = n
    · simp only [setPoints, if_pos hx, namesOf, List.filterMap_cons]
    · simp only [setPoints, if_neg hx, namesOf, List.filterMap_cons] at ih ⊢
      rcases x.name with _ | s
      · exact ih
      · rw [ih]

/-- Appending data of strings is appending of their character lists. -/
theorem data_append (a b : String) : (a ++ b).data = a.data ++ b.data := by
  cases a
  cases b
  rfl

/-- A list is a prefix of itself followed by anything. -/
theorem isPrefixOfCL_append (xs ys : List Char) :
    isPrefixOfCL xs (xs ++ ys) = true := by
  induction xs with
  | nil => rfl
  | cons x xs ih => simp [isPrefixOfCL, ih]

/-- A pattern that is a prefix of the haystack is contained in it. -/
theorem containsCL_of_front {pat hay : List Char}
    (h : isPrefixOfCL pat hay = true) : containsCL pat hay = true := by
  cases hay with
  | nil => exact h
  | cons c t => simp [containsCL, h]

/-- Containment is preserved by consing a character in front. -/
theorem containsCL_cons (pat : List Char) (c : Char) (t : List Char)
    (h : containsCL pat t = true) : containsCL pat (c :: t) = true := by
  simp [containsCL, h]

/-- Containment in the right part gives containment in an append. -/
theorem containsCL_append_right (a b pat : List Char)
    (h : containsCL pat b = true) : containsCL pat (a ++ b) = true := by
  induction a with
  | nil => exact h
  | cons c t ih => exact containsCL_cons pat c (t ++ b) ih

/-- A successful prefix test yields the surrounding suffix. -/
theorem isPrefixOfCL_exists {pat ys : List Char}
    (h : isPrefixOfCL pat ys = true) : ∃ b, ys = pat ++ b := by
  induction pat generalizing ys with
  | nil => exact ⟨ys, rfl⟩
  | cons p ps ih =>
    cases ys with
    | nil => simp [isPrefixOfCL] at h
    | cons y ys2 =>
      simp only [isPrefixOfCL, Bool.and_eq_true, beq_iff_eq] at h
      obtain ⟨rfl, h2⟩ := h
      obtain ⟨b, rfl⟩ := ih h2
      exact ⟨b, rfl⟩

/-- A successful containment test yields an occurrence split. -/
theorem containsCL_exists {pat hay : List Char}
    (h : containsCL pat hay = true) : ∃ a b, hay = a ++ pat ++ b := by
  induction hay with
  | nil =>
    obtain ⟨b, hb⟩ := isPrefixOfCL_exists h
    exact ⟨[], b, by simpa using hb⟩
  | cons c t ih =>
    simp only [containsCL, Bool.or_eq_true] at h
    rcases h with h | h
    · obtain ⟨b, hb⟩ := isPrefixOfCL_exists h
      exact ⟨[], b, by simpa using hb⟩
    · obtain ⟨a, b, hb⟩ := ih h
      exact ⟨c :: a, b, by simp [hb]⟩

/-- An occurrence split witnesses containment. -/
theorem containsCL_split (a b pat : List Char) :
    containsCL pat (a ++ pat ++ b) = true := by
  rw [List.append_assoc]
  exact containsCL_append_right a (pat ++ b) pat
    (containsCL_of_front (isPrefixOfCL_append pat b))

/-- Substring containment is transitive. -/
theorem contains_trans {x y z : String} (h1 : strContains x y = true)
    (h2 : strContains y z = true) : strContains x z = true := by
  unfold strContains at h1 h2 ⊢
  obtain ⟨a, b, hab⟩ := containsCL_exists h1
  obtain ⟨c, d, hcd⟩ := containsCL_exists h2
  rw [hab, hcd]
  have heq : (a ++ ((c ++ z.data) ++ d)) ++ b
      = ((a ++ c) ++ z.data) ++ (d ++ b) := by simp [List.append_assoc]
  rw [heq]
  exact containsCL_split (a ++ c) (d ++ b) z.data

/-- A document free of some substring of a fragment is free of the whole
fragment. -/
theorem not_contains_of_marker {doc f m : String}
    (hfm : strContains f m = true) (hdm : strContains doc m = false) :
    strContains doc f = false := by
  cases h : strContains doc f with
  | false => rfl
  | true => rw [contains_trans h hfm] at hdm; exact hdm

/-- Containment in the right part of a string append. -/
theorem strContains_append_right (a b f : String)
    (h : strContains b f = true) : strContains (a ++ b) f = true := by
  show containsCL f.data (a ++ b).data = true
  rw [data_append]
  exact containsCL_append_right a.data b.data f.data h

/-- Every piece of a concatenation is contained in it. -/
theorem contains_concat_of_mem (l : List String) (f : String) (h : f ∈ l) :
    strContains (concatAll l) f = true := by
  induction l with
  | nil => simp at h
  | cons x xs ih =>
    rcases List.mem_cons.mp h with rfl | h2
    · show containsCL f.data (concatAll (f :: xs)).data = true
      rw [show concatAll (f :: xs) = f ++ concatAll xs from rfl, data_append]
      exact containsCL_of_front (isPrefixOfCL_append f.data (concatAll xs).data)
    · show containsCL f.data (concatAll (x :: xs)).data = true
      rw [show concatAll (x :: xs) = x ++ concatAll xs from rfl, data_append]
      exact containsCL_append_right x.data (concatAll xs).data f.data (ih h2)

/-- A concatenation contains every string of a sublist of its pieces. -/
theorem all_contains_of_subset (pieces frags : List String)
    (h : ∀ f ∈ frags, f ∈ pieces) :
    frags.all (fun f => strContains (concatAll pieces) f) = true := by
  rw [List.all_eq_true]
  intro f hf
  exact contains_concat_of_mem pieces f (h f hf)

/-- A document containing no marker contains no fragment covered by the
markers. -/
theorem all_not_contains (doc : String) (frags markers : List String)
    (hmark : ∀ m ∈ markers, strContains doc m = false)
    (hcover : ∀ f ∈ frags, ∃ m ∈ markers, strContains f m = true) :
    frags.all (fun f => !(strContains doc f)) = true := by
  rw [List.all_eq_true]
  intro f hf
  obtain ⟨m, hm, hfm⟩ := hcover f hf
  have hne := not_contains_of_marker hfm (hmark m hm)
  simp [hne]

/-- Appending the empty string on the right is the identity. -/
theorem append_empty_str (s : String) : s ++ "" = s := by
  cases s with
  | mk d => exact congrArg String.mk (List.append_nil d)

/-- Appending the empty string on the left is the identity. -/
theorem empty_append_str (s : String) : "" ++ s = s := by
  cases s with
  | mk d => exact congrArg String.mk (List.nil_append d)

/-- Unfolding equation of `concatAll` on a cons. -/
theorem concatAll_cons (x : String) (l : List String) :
    concatAll (x :: l) = x ++ concatAll l := rfl

/-- Unfolding equation of `concatAll` on the empty list. -/
theorem concatAll_nil : concatAll [] = "" := rfl

/-- Concatenation distributes over list append. -/
theorem concatAll_append (l1 l2 : List String) :
    concatAll (l1 ++ l2) = concatAll l1 ++ concatAll l2 := by
  induction l1 with
  | nil => exact (empty_append_str _).symm
  | cons x xs ih =>
    show x ++ concatAll (xs ++ l2) = (x ++ concatAll xs) ++ concatAll l2
    rw [ih, String.append_assoc]

/-- `interleave` on a nonempty list is the head followed by the
separator-prefixed tail. -/
theorem interleave_eq_sepPref (sep x : String) (xs : List String) :
    interleave sep (x :: xs) = x :: sepPref sep xs := by
  induction xs generalizing x with
  | nil => rfl
  | cons y ys ih =>
    show x :: sep :: interleave sep (y :: ys) = x :: sep :: y :: sepPref sep ys
    rw [ih]

/-- The accumulator form of `String.intercalate.go` as a concatenation. -/
theorem intercalate_go_concat (sep : String) (xs : List String) (x : String) :
    String.intercalate.go x sep xs = x ++ concatAll (sepPref sep xs) := by
  induction xs generalizing x with
  | nil => exact (append_empty_str x).symm
  | cons y ys ih =>
    show String.intercalate.go (x ++ sep ++ y) sep ys
      = x ++ concatAll (sep :: y :: sepPref sep ys)
    rw [ih]
    simp [concatAll_cons, String.append_assoc]

/-- `String.intercalate` concatenates the interleaving of its pieces. -/
theorem concat_interleave (sep : String) (l : List String) :
    String.intercalate sep l = concatAll (interleave sep l) := by
  cases l with
  | nil => rfl
  | cons x xs =>
    rw [interleave_eq_sepPref]
    show String.intercalate.go x sep xs = concatAll (x :: sepPref sep xs)
    rw [intercalate_go_concat, concatAll_cons]

/-- Reduction of the admin-conditional interpolation when the caller is an
admin. -/
theorem if_true_str (s : String) : (if (true : Bool) = true then s else "") = s := rfl

/-- The admin dashboard document is the concatenation of its pieces. -/
theorem adminDoc_eq (u p : String) :
    dashboard_html u p true = concatAll (adminDocPieces u p) := by
  simp only [dashboard_html, adminDocPieces, fragJsAdd, fragJsUpd, interleave,
    List.map_cons, List.map_nil, if_true_str, if_true, concat_interleave,
    concatAll_append, concatAll_cons, concatAll_nil, append_empty_str,
    empty_append_str, List.cons_append, List.nil_append, List.append_nil,
    String.append_assoc]

/-! Claim theorems. -/

/-- Claim C1: for every state of the persons table satisfying the uniqueness
invariant, an admin call to the create endpoint with an already-present name
fails with the 400 "Person already exists" error, the rollback leaves the
table exactly unchanged, and exactly one row with that name exists
afterward. -/
theorem add_duplicate_rejected (db : DB) (n : String) (hwf : WF db)
    (hmem : ∃ r ∈ db, r.name = some n) :
    add_person db "admin" (some n) none
      = (db, .error ⟨400, "Person already exists", []⟩)
    ∧ (namesOf db).count n = 1 := by
  obtain ⟨r, hr, hrn⟩ := hmem
  have hviol : violatesUnique db (some n) = true := by
    simp only [violatesUnique, List.any_eq_true]
    exact ⟨r, hr, by simp [hrn]⟩
  refine ⟨by simp [add_person, hviol], ?_⟩
  exact List.count_eq_one_of_mem hwf (mem_namesOf.mpr ⟨r, hr, hrn⟩)

/-- Witness for C1 at a one-row table holding the name "Bob". -/
theorem add_duplicate_rejected_witness :
    add_person [⟨some "Bob", some 3⟩] "admin" (some "Bob") none
      = ([⟨some "Bob", some 3⟩], .error ⟨400, "Person already exists", []⟩)
    ∧ (namesOf [⟨some "Bob", some 3⟩]).count "Bob" = 1 :=
  add_duplicate_rejected [⟨some "Bob", some 3⟩] "Bob" (by simp [WF, namesOf])
    ⟨⟨some "Bob", some 3⟩, by simp, rfl⟩

/-- Claim C2: a (username, password) pair stored in the credential store
authenticates to an identity carrying that username and the stored role; any
other pair — wrong password or unknown username — fails with the 401
"Invalid credentials" error carrying the `WWW-Authenticate: Basic` challenge
header. -/
theorem auth_correct (u p : String) :
    (∀ cred, USERS u = some cred →
      (p = cred.password → get_current_user u p = .ok ⟨u, cred.role⟩)
      ∧ (p ≠ cred.password →
        get_current_user u p
          = .error ⟨401, "Invalid credentials", [("WWW-Authenticate", "Basic")]⟩))
    ∧ (USERS u = none →
      get_current_user u p
        = .error ⟨401, "Invalid credentials", [("WWW-Authenticate", "Basic")]⟩) := by
  refine ⟨fun cred hc => ⟨fun hp => ?_, fun hp => ?_⟩, fun h => ?_⟩
  · simp [get_current_user, hc, hp]
  · have hne : ¬ (cred.password = p) := fun hh => hp hh.symm
    simp [get_current_user, hc, hne]
  · simp [get_current_user, h]

/-- Witness for C2: the stored pair (john, readonly123) authenticates as a
viewer, and a wrong password for john is rejected with the 401 challenge. -/
theorem auth_correct_witness :
    get_current_user "john" "readonly123" = .ok ⟨"john", "viewer"⟩
    ∧ get_current_user "john" "wrong"
      = .error ⟨401, "Invalid credentials", [("WWW-Authenticate", "Basic")]⟩ :=
  ⟨((auth_correct "john" "readonly123").1 ⟨"readonly123", "viewer"⟩
      (by decide)).1 rfl,
   ((auth_correct "john" "wrong").1 ⟨"readonly123", "viewer"⟩
      (by decide)).2 (by decide)⟩

/-- Claim C3: an admin call to the update endpoint with a name and points
fails with the 404 "Person not found" error, leaving the table unchanged,
when no row carries that exact name; otherwise it overwrites the matched
row's points wholesale with the supplied value, keeps every differently-named
row, commits, and returns the updated name and points. -/
theorem update_points_spec (db : DB) (n : String) (p : Int) (hwf : WF db) :
    ((∀ r ∈ db, r.name ≠ some n) →
      update_points db "admin" (some n) (some p)
        = (db, .error ⟨404, "Person not found", []⟩))
    ∧ ((∃ r ∈ db, r.name = some n) →
      update_points db "admin" (some n) (some p)
        = (setPoints db (some n) (some p), .ok ⟨some n, some p⟩)
      ∧ (∃ r ∈ setPoints db (some n) (some p), r.name = some n ∧ r.points = some p)
      ∧ (∀ r ∈ db, r.name ≠ some n → r ∈ setPoints db (some n) (some p))) := by
  constructor
  · intro hall
    simp [update_points, filter_name_nil hall]
  · intro hex
    obtain ⟨x, hfil, hxn⟩ := filter_name_single hwf hex
    refine ⟨by simp [update_points, hfil], ?_, ?_⟩
    · exact setPoints_mem_updated db (some n) (some p) hex
    · exact fun r hr hrn => setPoints_mem_other db (some n) (some p) r hr hrn

/-- Witness for C3: updating the present name "Alice" to 42 points rewrites
her row and returns the updated pair; the hypothesis side conditions hold at
this concrete table. -/
theorem update_points_spec_witness :
    update_points [⟨some "Alice", some 0⟩] "admin" (some "Alice") (some 42)
      = ([⟨some "Alice", some 42⟩], .ok ⟨some "Alice", some 42⟩) := by
  have h := (update_points_spec [⟨some "Alice", some 0⟩] "Alice" 42
      (by simp [WF, namesOf])).2 ⟨⟨some "Alice", some 0⟩, by simp, rfl⟩
  simpa [setPoints] using h.1

/-- Claim C4: an authenticated caller whose role is not admin gets the 403
"Admins only" error from both mutating endpoints, and the table is returned
unchanged by both. -/
theorem non_admin_forbidden (db : DB) (role : String) (name : Option String)
    (pts : Option Int) (intf : Option StorageErr) (h : role ≠ "admin") :
    add_person db role name intf = (db, .error ⟨403, "Admins only", []⟩)
    ∧ update_points db role name pts = (db, .error ⟨403, "Admins only", []⟩) :=
  ⟨by simp [add_person, h], by simp [update_points, h]⟩

/-- Witness for C4 at the viewer role on a concrete table. -/
theorem non_admin_forbidden_witness :
    add_person [⟨some "Bo", some 1⟩] "viewer" (some "Alice") none
      = ([⟨some "Bo", some 1⟩], .error ⟨403, "Admins only", []⟩)
    ∧ update_points [⟨some "Bo", some 1⟩] "viewer" (some "Bo") (some 9)
      = ([⟨some "Bo", some 1⟩], .error ⟨403, "Admins only", []⟩) :=
  non_admin_forbidden [⟨some "Bo", some 1⟩] "viewer" (some "Alice")
    (some 9) none (by decide)

/-- Claim C5: an admin call to the create endpoint with a fresh name appends
a row with that name and 0 points, returns the created pair with 0 points,
and the list endpoint on the resulting table includes that pair. -/
theorem add_new_person (db : DB) (n : String)
    (h : ∀ r ∈ db, r.name ≠ some n) :
    add_person db "admin" (some n) none
      = (db ++ [⟨some n, some 0⟩], .ok ⟨some n, some 0⟩)
    ∧ ∃ l, (get_persons (db ++ [⟨some n, some 0⟩])).2 = .ok l
        ∧ ⟨some n, some 0⟩ ∈ l := by
  have hviol : violatesUnique db (some n) = false := by
    simp only [violatesUnique]
    rw [List.any_eq_false]
    intro r hr
    simp only [beq_iff_eq]
    exact h r hr
  refine ⟨by simp [add_person, hviol], ?_⟩
  refine ⟨_, rfl, ?_⟩
  apply List.mem_map.mpr
  refine ⟨⟨some n, some 0⟩, ?_, rfl⟩
  apply (List.perm_insertionSort rowLe
    (db ++ [(⟨some n, some 0⟩ : Person)])).mem_iff.mpr
  simp

/-- Witness for C5: adding "Alice" to the empty table. -/
theorem add_new_person_witness :
    add_person [] "admin" (some "Alice") none
      = ([⟨some "Alice", some 0⟩], .ok ⟨some "Alice", some 0⟩)
    ∧ ∃ l, (get_persons [⟨some "Alice", some 0⟩]).2 = .ok l
        ∧ ⟨some "Alice", some 0⟩ ∈ l := by
  have h := add_new_person [] "Alice" (by simp)
  simpa using h

/-- Claim C6: for any table state, the list endpoint leaves the table
unchanged and returns one name/points pair per stored row — a permutation of
the rows' pairs, so no pagination or filtering — ordered by points ascending
(the networked-database variant's `ORDER BY points ASC`). -/
theorem persons_listed_sorted (db : DB) :
    (get_persons db).1 = db
    ∧ ∃ l, (get_persons db).2 = .ok l
        ∧ l.Perm (db.map toPair)
        ∧ l.Pairwise outLe := by
  refine ⟨rfl, _, rfl, ?_, ?_⟩
  · exact (List.perm_insertionSort rowLe db).map toPair
  · exact List.pairwise_map.mpr (List.sorted_insertionSort rowLe db)

/-- Claim C7: every injected storage failure at commit time during an admin
create — whatever its message, and regardless of the table state — is caught
by the bare except, rolled back (table unchanged), and surfaced as the very
same 400 "Person already exists" error that a duplicate name produces, making
unrelated storage failures indistinguishable from a duplicate. -/
theorem commit_failure_masked (db : DB) (name : Option String) (e : StorageErr) :
    add_person db "admin" name (some e)
      = (db, .error ⟨400, "Person already exists", []⟩) := by
  cases hv : violatesUnique db name <;> simp [add_person, hv]

/-- Claim C9: no endpoint ever removes a person — every name stored before
any one of the four operations is still stored after it, whether the call
succeeded or failed. -/
theorem names_never_removed (db : DB) (op : Op) (n : String)
    (h : n ∈ namesOf db) : n ∈ namesOf (applyOp db op) := by
  have hadd : ∀ role nm intf, (add_person db role nm intf).1 = db ∨
      (add_person db role nm intf).1 = db ++ [⟨nm, some 0⟩] := by
    intro role nm intf
    unfold add_person
    split
    · exact Or.inl rfl
    · split
      · exact Or.inl rfl
      · cases intf with
        | none => exact Or.inr rfl
        | some e => exact Or.inl rfl
  have hupd : ∀ role nm p, (update_points db role nm p).1 = db ∨
      (update_points db role nm p).1 = setPoints db nm p := by
    intro role nm p
    unfold update_points
    split
    · exact Or.inl rfl
    · split
      · exact Or.inl rfl
      · exact Or.inr rfl
      · exact Or.inl rfl
  cases op with
  | dash _ => exact h
  | listP => exact h
  | add role nm intf =>
    show n ∈ namesOf (add_person db role nm intf).1
    rcases hadd role nm intf with h1 | h1 <;> rw [h1]
    · exact h
    · unfold namesOf
      rw [List.filterMap_append]
      exact List.mem_append_left _ h
  | upd role nm p =>
    show n ∈ namesOf (update_points db role nm p).1
    rcases hupd role nm p with h1 | h1 <;> rw [h1]
    · exact h
    · rw [setPoints_names]
      exact h

/-- Witness for C9: an admin update of Alice's points keeps the name Alice
stored. -/
theorem names_never_removed_witness :
    "Alice" ∈ namesOf
      (applyOp [⟨some "Alice", some 0⟩]
        (Op.upd "admin" (some "Alice") (some 5))) :=
  names_never_removed [⟨some "Alice", some 0⟩]
    (Op.upd "admin" (some "Alice") (some 5)) "Alice" (by simp [namesOf])

set_option maxHeartbeats 4000000

/-- Counterexample to claim C8 as stated: the admin wiring script line
"  loadPeople();" is one of the conditional admin fragments, yet the document
rendered for the viewer john contains that text anyway, because the
unconditional `loadPeople` script body contains the same line at a deeper
indentation. -/
theorem dashboard_viewer_contains_shared_line :
    "  loadPeople();" ∈ adminFragments
    ∧ dashboard ⟨"john", "viewer"⟩
        = some (dashboard_html "john" "readonly123" false)
    ∧ strContains (dashboard_html "john" "readonly123" false)
        "  loadPeople();" = true :=
  ⟨by decide, rfl, strContains_append_right _ htmlTail _ (by decide)⟩

/-- Claim C8 (amended): for every authenticated identity the dashboard
renders a document that contains all the admin form markup and wiring script
fragments if and only if the identity's role is admin; for a non-admin the
document contains none of those fragments apart from the three script lines
whose text already occurs verbatim inside the unconditional `loadPeople`
script. -/
theorem dashboard_admin_controls (u p : String) (ident : Identity)
    (h : get_current_user u p = .ok ident) :
    ∃ doc, dashboard ident = some doc
      ∧ ((adminFragments.all (fun f => strContains doc f)) = true
          ↔ ident.role = "admin")
      ∧ (ident.role ≠ "admin" →
          (adminFragments.filter
            (fun f => !(sharedScriptLines.contains f))).all
              (fun f => !(strContains doc f)) = true) := by
  have hid : ident = ⟨"admin", "admin"⟩ ∨ ident = ⟨"john", "viewer"⟩
      ∨ ident = ⟨"sarah", "viewer"⟩ := by
    by_cases h1 : u = "admin"
    · subst h1
      rw [show get_current_user "admin" p
            = (if "supersecret" = p then .ok ⟨"admin", "admin"⟩
              else .error ⟨401, "Invalid credentials",
                [("WWW-Authenticate", "Basic")]⟩) from rfl] at h
      split at h
      · exact Or.inl (Except.ok.inj h).symm
      · simp at h
    · by_cases h2 : u = "john"
      · subst h2
        rw [show get_current_user "john" p
              = (if "readonly123" = p then .ok ⟨"john", "viewer"⟩
                else .error ⟨401, "Invalid credentials",
                  [("WWW-Authenticate", "Basic")]⟩) from rfl] at h
        split at h
        · exact Or.inr (Or.inl (Except.ok.inj h).symm)
        · simp at h
      · by_cases h3 : u = "sarah"
        · subst h3
          rw [show get_current_user "sarah" p
                = (if "readpass" = p then .ok ⟨"sarah", "viewer"⟩
                  else .error ⟨401, "Invalid credentials",
                    [("WWW-Authenticate", "Basic")]⟩) from rfl] at h
          split at h
          · exact Or.inr (Or.inr (Except.ok.inj h).symm)
          · simp at h
        · have hnone : USERS u = none := by
            unfold USERS
            rw [if_neg h1, if_neg h2, if_neg h3]
          simp [get_current_user, hnone] at h
  rcases hid with rfl | rfl | rfl
  · refine ⟨concatAll (adminDocPieces "admin" "supersecret"), ?_,
      iff_of_true ?_ rfl, fun hne => absurd rfl hne⟩
    · rw [show dashboard ⟨"admin", "admin"⟩
          = some (dashboard_html "admin" "supersecret" true) from rfl]
      exact congrArg some (adminDoc_eq "admin" "supersecret")
    · exact all_contains_of_subset _ _ (by decide)
  · have hmark : ∀ m ∈ viewerMarkers,
        strContains (dashboard_html "john" "readonly123" false) m = false := by
      decide
    refine ⟨dashboard_html "john" "readonly123" false, rfl,
      iff_of_false ?_ (by decide), fun _ => ?_⟩
    · intro hall
      have h1 := List.all_eq_true.mp hall fragAddH (by decide)
      have h2 := not_contains_of_marker
        (show strContains fragAddH "<h3>" = true by decide)
        (hmark "<h3>" (by decide))
      simp [h2] at h1
    · exact all_not_contains _ _ viewerMarkers hmark (by decide)
  · have hmark : ∀ m ∈ viewerMarkers,
        strContains (dashboard_html "sarah" "readpass" false) m = false := by
      decide
    refine ⟨dashboard_html "sarah" "readpass" false, rfl,
      iff_of_false ?_ (by decide), fun _ => ?_⟩
    · intro hall
      have h1 := List.all_eq_true.mp hall fragAddH (by decide)
      have h2 := not_contains_of_marker
        (show strContains fragAddH "<h3>" = true by decide)
        (hmark "<h3>" (by decide))
      simp [h2] at h1
    · exact all_not_contains _ _ viewerMarkers hmark (by decide)

/-- Witness for the amended C8 at the authenticated admin identity. -/
theorem dashboard_admin_controls_witness :
    ∃ doc, dashboard ⟨"admin", "admin"⟩ = some doc
      ∧ ((adminFragments.all (fun f => strContains doc f)) = true
          ↔ (⟨"admin", "admin"⟩ : Identity).role = "admin")
      ∧ ((⟨"admin", "admin"⟩ : Identity).role ≠ "admin" →
          (adminFragments.filter
            (fun f => !(sharedScriptLines.contains f))).all
              (fun f => !(strContains doc f)) = true) :=
  dashboard_admin_controls "admin" "supersecret" ⟨"admin", "admin"⟩ rfl

/-- Claim C10: an admin create whose body carries no "name" key is not
rejected: the handler inserts a row with a NULL name (which the UNIQUE
constraint never rejects, so the commit succeeds) and returns the pair of a
null name and 0 points. -/
theorem add_null_name (db : DB) :
    add_person db "admin" none none
      = (db ++ [⟨none, some 0⟩], .ok ⟨none, some 0⟩) := by
  simp [add_person, violatesUnique]

end Dashboard
